import Mathlib

/-!
Verification development for `packages/ngtools/webpack/src/compiler_host.ts`
(`WebpackCompilerHost`), a TypeScript compiler-host adapter over the
`@angular-devkit/core` virtual filesystem.

The adapter itself is embedded directly from the source.  Its collaborators
(`normalize`, `join`, `isAbsolute`, `getSystemPath` and the `virtualFs`
`CordHost`/`SyncDelegateHost` layer) live elsewhere in the repository and are
modelled from the specification's description of their contracts.
-/

set_option autoImplicit false
set_option maxRecDepth 40000

namespace CompilerHost

/-- A path separator character: forward or backward slash.  Modelled from the
spec: two spellings of a path that differ only in slash direction must
normalize to the same internal key. -/
def isSep (c : Char) : Bool := c = '/' || c = '\\'

/-- Splits a character list at separator characters, returning the current
(first) segment and the list of the remaining segments. -/
def splitSepCore : List Char → List Char × List (List Char)
  | [] => ([], [])
  | c :: cs =>
    let r := splitSepCore cs
    if isSep c then ([], r.1 :: r.2) else (c :: r.1, r.2)

/-- All chunks produced by splitting at separators. -/
def splitSep (cs : List Char) : List (List Char) :=
  (splitSepCore cs).1 :: (splitSepCore cs).2

/-- A normalized path (the `Path` type of `@angular-devkit/core`): an
absolute-flag and a list of path segments.  Modelled from the spec: the
normalized internal key of a path. -/
structure NPath where
  absolute : Bool
  segments : List (List Char)
deriving DecidableEq, Repr

/-- Whether a raw path spelling starts with a separator (is absolute). -/
def headIsSep : List Char → Bool
  | [] => false
  | c :: _ => isSep c

/-- Modelled from the spec: `normalize` of `@angular-devkit/core` (not under
`src/`): parse a raw path into its normalized form, unifying slash direction
and dropping empty segments. -/
def normalize (s : String) : NPath :=
  ⟨headIsSep s.data, (splitSep s.data).filter (fun t => t ≠ [])⟩

/-- Interleave path segments with `/`. -/
def joinSegs : List (List Char) → List Char
  | [] => []
  | [s] => s
  | s :: t :: rest => s ++ '/' :: joinSegs (t :: rest)

/-- The character rendering of a normalized path. -/
def NPath.renderChars (p : NPath) : List Char :=
  (if p.absolute then ['/'] else []) ++ joinSegs p.segments

/-- The string rendering of a normalized path. -/
def NPath.render (p : NPath) : String := String.mk p.renderChars

/-- A well-formed segment: nonempty and free of separator characters. -/
def segOK (t : List Char) : Prop := t ≠ [] ∧ ∀ c ∈ t, isSep c = false

instance (t : List Char) : Decidable (segOK t) := by
  unfold segOK; infer_instance

/-- A well-formed normalized path: every segment is well-formed. -/
def NPath.WF (p : NPath) : Prop := ∀ t ∈ p.segments, segOK t

instance (p : NPath) : Decidable p.WF := by
  unfold NPath.WF; infer_instance

/-- Modelled from the spec: `join` of `@angular-devkit/core` (not under
`src/`): append the second path's segments to the first. -/
def joinP (a b : NPath) : NPath := ⟨a.absolute, a.segments ++ b.segments⟩

/-- Source `resolve` from `compiler_host.ts`: normalize the path; return it if
absolute, else join it to the base path. -/
def resolveP (base : NPath) (path : String) : NPath :=
  let p := normalize path
  if p.absolute then p else joinP base p

/-- Modelled from the spec: `getSystemPath` of `@angular-devkit/core` (not
under `src/`): render a normalized path in the host's native representation
(modelled as the POSIX rendering). -/
def getSystemPath (p : NPath) : String := p.render

/-- Source `denormalizePath` from `compiler_host.ts`. -/
def denormalizePath (p : NPath) : String := getSystemPath p

/-! ## Virtual filesystem model

Modelled from the spec: the `@angular-devkit/core` `virtualFs` layer is not
under `src/`.  The spec describes it as a two-layer store (a mutable overlay
over a backing store) together with a change log of records tagged by kind
(`create`, ...) and carrying a path. -/

/-- A filesystem entry: a file with textual content, or a directory.
Modelled from the spec: byte-level file buffers are elided; a buffer is
identified with its textual content. -/
inductive Entry where
  | file (content : String)
  | dir
deriving DecidableEq, Repr

/-- One layer of the filesystem: a finite map from normalized paths to
entries, as an association list. -/
def Store := List (NPath × Entry)

/-- Look a path up in a store layer. -/
def Store.lookup (l : Store) (p : NPath) : Option Entry :=
  match l with
  | [] => none
  | (q, e) :: rest => if q = p then some e else Store.lookup rest p

/-- Insert or replace the entry at a path in a store layer. -/
def Store.upsert (l : Store) (p : NPath) (e : Entry) : Store :=
  match l with
  | [] => [(p, e)]
  | (q, f) :: rest => if q = p then (p, e) :: rest else (q, f) :: Store.upsert rest p e

/-- The kind tag of a change record.  Modelled from the spec: records are
"tagged by kind (created, etc.)". -/
inductive RecordKind where
  | create
  | overwrite
deriving DecidableEq, Repr

/-- A change record of the overlay filesystem: a kind and a path. -/
structure CordRecord where
  kind : RecordKind
  path : NPath
deriving DecidableEq, Repr

/-- Modelled from the spec: the `CordHost` overlay filesystem — a mutable
overlay over a read-only backing store, plus the change log. -/
structure CordHost where
  backend : Store
  overlay : Store
  records : List CordRecord

/-- The merged view: the overlay shadows the backing store. -/
def CordHost.lookupMerged (h : CordHost) (p : NPath) : Option Entry :=
  match Store.lookup h.overlay p with
  | some e => some e
  | none => Store.lookup h.backend p

/-- Source `exists` of the merged filesystem view. -/
def CordHost.pathExists (h : CordHost) (p : NPath) : Bool :=
  (h.lookupMerged p).isSome

/-- Source `isFile` of the merged filesystem view. -/
def CordHost.isFile (h : CordHost) (p : NPath) : Bool :=
  match h.lookupMerged p with
  | some (Entry.file _) => true
  | _ => false

/-- Source `isDirectory` of the merged filesystem view. -/
def CordHost.isDirectory (h : CordHost) (p : NPath) : Bool :=
  match h.lookupMerged p with
  | some Entry.dir => true
  | _ => false

/-- Source `exists` asked of the backing store alone (the `backend` host built in
`fileExists` with `delegate = false`). -/
def CordHost.backendExists (h : CordHost) (p : NPath) : Bool :=
  (Store.lookup h.backend p).isSome

/-- Source `isFile` asked of the backing store alone. -/
def CordHost.backendIsFile (h : CordHost) (p : NPath) : Bool :=
  match Store.lookup h.backend p with
  | some (Entry.file _) => true
  | _ => false

/-- Modelled from the spec: writing through the overlay filesystem places the
content in the overlay and appends a change record, tagged `create` when the
path did not previously exist in the merged view and `overwrite` otherwise. -/
def CordHost.write (h : CordHost) (p : NPath) (data : String) : CordHost :=
  if h.pathExists p then
    ⟨h.backend, Store.upsert h.overlay p (Entry.file data),
      h.records ++ [⟨RecordKind.overwrite, p⟩]⟩
  else
    ⟨h.backend, Store.upsert h.overlay p (Entry.file data),
      h.records ++ [⟨RecordKind.create, p⟩]⟩

/-- The metadata the virtual filesystem tracks for an entry.  Modelled from
the spec: size and timestamps; the model's timestamps are zero since no claim
constrains them. -/
structure StatInfo where
  size : Nat
  atime : Nat
  mtime : Nat
  ctime : Nat
  birthtime : Nat
deriving DecidableEq, Repr

/-- The metadata of one entry. -/
def entryStat : Entry → StatInfo
  | Entry.file c => ⟨c.length, 0, 0, 0, 0⟩
  | Entry.dir => ⟨0, 0, 0, 0, 0⟩

/-- Source `stat` of the merged filesystem view. -/
def CordHost.statInfo (h : CordHost) (p : NPath) : Option StatInfo :=
  match h.lookupMerged p with
  | some e => some (entryStat e)
  | none => none

/-! ## The compiler-host adapter (`WebpackCompilerHost`) -/

/-- The state of a `WebpackCompilerHost`: the normalized base path, the
layered filesystem, and the changed-file set (`_changedFiles`, a set of
resolved paths kept as a duplicate-free list). -/
structure WebpackCompilerHost where
  basePath : NPath
  fs : CordHost
  changedFiles : List NPath

/-- The constructor: normalize the base path, wrap the given backing store in
a fresh overlay with an empty change log, and start with no changed files. -/
def mkCompilerHost (basePath : String) (backend : Store) : WebpackCompilerHost :=
  ⟨normalize basePath, ⟨backend, [], []⟩, []⟩

/-- Source `resolve` as a method of the host. -/
def WebpackCompilerHost.resolve (h : WebpackCompilerHost) (path : String) : NPath :=
  resolveP h.basePath path

/-- Source `virtualFiles`: the paths of the change records of kind `create`. -/
def WebpackCompilerHost.virtualFiles (h : WebpackCompilerHost) : List NPath :=
  (h.fs.records.filter (fun r => decide (r.kind = RecordKind.create))).map CordRecord.path

/-- Source `resetChangedFileTracker`: clear the changed-file set. -/
def WebpackCompilerHost.resetChangedFileTracker (h : WebpackCompilerHost) :
    WebpackCompilerHost :=
  ⟨h.basePath, h.fs, []⟩

/-- Source `getChangedFilePaths`: snapshot the changed-file set as a list. -/
def WebpackCompilerHost.getChangedFilePaths (h : WebpackCompilerHost) : List NPath :=
  h.changedFiles

/-- Whether a normalized path ends (in its rendered spelling) with the given
suffix — `String.endsWith` of the source. -/
def NPath.hasSuffix (p : NPath) (suf : String) : Bool :=
  List.isSuffixOf suf.data p.renderChars

/-- Source `getNgFactoryPaths`: the denormalized paths of the created virtual files
whose name ends in `.ngfactory.js` or `.ngstyle.js`. -/
def WebpackCompilerHost.getNgFactoryPaths (h : WebpackCompilerHost) : List String :=
  ((h.virtualFiles.filter
      (fun fileName =>
        fileName.hasSuffix ".ngfactory.js" || fileName.hasSuffix ".ngstyle.js")).map
    (fun path => denormalizePath path))

/-- Source `fileExists`: the resolved path exists and is a file in the merged view;
with `delegate = false`, additionally the path must not be a file of the
backing store. -/
def WebpackCompilerHost.fileExists (h : WebpackCompilerHost) (fileName : String)
    (delegate : Bool) : Bool :=
  let p := h.resolve fileName
  let ex := h.fs.pathExists p && h.fs.isFile p
  if delegate then ex
  else ex && !(h.fs.backendExists p && h.fs.backendIsFile p)

/-- Insert a path into the changed-file set (set semantics: no duplicate). -/
def addChanged (l : List NPath) (p : NPath) : List NPath :=
  if p ∈ l then l else l ++ [p]

/-- Source `invalidate`: when the file exists, add its resolved path to the
changed-file set. -/
def WebpackCompilerHost.invalidate (h : WebpackCompilerHost) (fileName : String) :
    WebpackCompilerHost :=
  let fullPath := h.resolve fileName
  if h.fileExists fileName true then
    ⟨h.basePath, h.fs, addChanged h.changedFiles fullPath⟩
  else h

/-- Source `readFile`: `undefined` when the resolved path is missing or not a file,
otherwise the file's textual content. -/
def WebpackCompilerHost.readFile (h : WebpackCompilerHost) (fileName : String) :
    Option String :=
  let filePath := h.resolve fileName
  if !(h.fs.pathExists filePath) || !(h.fs.isFile filePath) then none
  else
    match h.fs.lookupMerged filePath with
    | some (Entry.file c) => some c
    | _ => none

/-- Source `readFileBuffer`: as `readFile` but returning the raw content (modelled
as the character list of the text). -/
def WebpackCompilerHost.readFileBuffer (h : WebpackCompilerHost) (fileName : String) :
    Option (List Char) :=
  let filePath := h.resolve fileName
  if !(h.fs.pathExists filePath) || !(h.fs.isFile filePath) then none
  else
    match h.fs.lookupMerged filePath with
    | some (Entry.file c) => some c.data
    | _ => none

/-- The stat-like record `stat` returns: fabricated placeholders (`dev`,
`ino`, `mode`, `nlink`, `uid`, `gid`, `rdev`, `blksize`), the derived
`blocks`, the millisecond timestamps, and the filesystem's own fields spread
over them. -/
structure Stats where
  dev : Nat
  ino : Nat
  mode : Nat
  nlink : Nat
  uid : Nat
  gid : Nat
  rdev : Nat
  blksize : Nat
  blocks : Nat
  atimeMs : Nat
  mtimeMs : Nat
  ctimeMs : Nat
  birthtimeMs : Nat
  size : Nat
  atime : Nat
  mtime : Nat
  ctime : Nat
  birthtime : Nat
deriving DecidableEq, Repr

/-- The record literal built by `stat`: `d` is the module-level constant
`dev` (drawn once per process), `inoDraw` the fresh random draw
`Math.floor(Math.random() * 100000)` made on this call. -/
def mkStats (d : Nat) (inoDraw : Nat) (st : StatInfo) : Stats :=
  ⟨d, inoDraw, 511, 1, 0, 0, 0, 512, (st.size + 511) / 512,
    st.atime, st.mtime, st.ctime, st.birthtime,
    st.size, st.atime, st.mtime, st.ctime, st.birthtime⟩

/-- Source `stat`: `null` when the resolved path does not exist (or the filesystem
yields no metadata), else the synthesized stat record.  The per-process `dev`
constant and the per-call random inode draw are explicit parameters. -/
def WebpackCompilerHost.stat (h : WebpackCompilerHost) (path : String)
    (d : Nat) (inoDraw : Nat) : Option Stats :=
  let p := h.resolve path
  if !(h.fs.pathExists p) then none
  else
    match h.fs.statInfo p with
    | none => none
    | some st => some (mkStats d inoDraw st)

/-- Source `directoryExists`: the resolved path exists and is a directory. -/
def WebpackCompilerHost.directoryExists (h : WebpackCompilerHost)
    (directoryName : String) : Bool :=
  let p := h.resolve directoryName
  h.fs.pathExists p && h.fs.isDirectory p

/-- Source `writeFile`: resolve the path and write the content through the
filesystem layer.  The second component is the message passed to the error
callback; in the model the write itself is total, so the callback is never
invoked (`none`).  Modelled from the spec for the filesystem-layer part:
write failures surface only as the callback message, never as an exception. -/
def WebpackCompilerHost.writeFile (h : WebpackCompilerHost) (fileName : String)
    (data : String) : WebpackCompilerHost × Option String :=
  let p := h.resolve fileName
  (⟨h.basePath, h.fs.write p data, h.changedFiles⟩, none)

/-- Source `getCurrentDirectory`. -/
def WebpackCompilerHost.getCurrentDirectory (h : WebpackCompilerHost) : NPath :=
  h.basePath

/-- Lower-case every segment of a normalized path (`path.toLowerCase()`). -/
def NPath.lowerCase (p : NPath) : NPath :=
  ⟨p.absolute, p.segments.map (fun t => t.map Char.toLower)⟩

/-- String `startsWith`, computed on the underlying character lists. -/
def strStartsWith (s t : String) : Bool := List.isPrefixOf t.data s.data

/-- Source `useCaseSensitiveFileNames()` as a function of the platform string:
`!process.platform.startsWith('win32')`. -/
def useCaseSensitiveFileNames (platform : String) : Bool :=
  !(strStartsWith platform "win32")

/-- The truthiness of the expression `this.useCaseSensitiveFileNames` as it
appears in `getCanonicalFileName`: the method is referenced without being
called, and a function object is always truthy. -/
def useCaseSensitiveFileNamesRefTruthy : Bool := true

/-- Source `getCanonicalFileName` exactly as written in the source: the condition of
the ternary is the (always-truthy) method reference, not the method's
result. -/
def WebpackCompilerHost.getCanonicalFileName (h : WebpackCompilerHost)
    (fileName : String) : NPath :=
  let path := h.resolve fileName
  if useCaseSensitiveFileNamesRefTruthy then path else path.lowerCase

/-- Source `getCanonicalFileName` as the specification describes it: the resolved
path, lower-cased exactly when the host is case-insensitive.  Used to compare
the source's behaviour against the specified intent. -/
def getCanonicalFileNameSpec (platform : String) (h : WebpackCompilerHost)
    (fileName : String) : NPath :=
  let path := h.resolve fileName
  if useCaseSensitiveFileNames platform then path else path.lowerCase

/-! ## Concrete fixtures used by witnesses -/

/-- A 1024-byte file content. -/
def bigContent : String := String.mk (List.replicate 1024 'a')

/-- A host over a backing store holding one 1024-byte file
`/project/big.txt`, with base directory `/project`. -/
def hostA : WebpackCompilerHost :=
  mkCompilerHost "/project" [(normalize "/project/big.txt", Entry.file bigContent)]

/-! ## Theorems -/

theorem splitSepCore_sepFree (s : List Char) (h : ∀ c ∈ s, isSep c = false) :
    splitSepCore s = (s, []) := by
  induction s with
  | nil => rfl
  | cons c cs ih =>
    have hc : isSep c = false := h c (List.mem_cons_self c cs)
    have hcs : ∀ x ∈ cs, isSep x = false := fun x hx => h x (List.mem_cons_of_mem c hx)
    simp [splitSepCore, hc, ih hcs]

theorem splitSepCore_append (s t : List Char) (h : ∀ c ∈ s, isSep c = false) :
    splitSepCore (s ++ '/' :: t) = (s, splitSep t) := by
  induction s with
  | nil => simp [splitSepCore, splitSep, isSep]
  | cons c cs ih =>
    have hc : isSep c = false := h c (List.mem_cons_self c cs)
    have hcs : ∀ x ∈ cs, isSep x = false := fun x hx => h x (List.mem_cons_of_mem c hx)
    simp [splitSepCore, hc, ih hcs]

theorem splitSep_joinSegs (segs : List (List Char)) (h : ∀ t ∈ segs, segOK t) :
    (splitSep (joinSegs segs)).filter (fun t => t ≠ []) = segs := by
  induction segs with
  | nil => simp [joinSegs, splitSep, splitSepCore]
  | cons s rest ih =>
    cases rest with
    | nil =>
      have hs := h s (List.mem_cons_self s [])
      simp [joinSegs, splitSep, splitSepCore_sepFree s hs.2, hs.1]
    | cons t rest2 =>
      have hs := h s (List.mem_cons_self s (t :: rest2))
      have hrest : ∀ x ∈ t :: rest2, segOK x := fun x hx =>
        h x (List.mem_cons_of_mem s hx)
      have hsplit := splitSepCore_append s (joinSegs (t :: rest2)) hs.2
      have hfil := ih hrest
      simp only [splitSep] at hfil
      simp only [joinSegs, splitSep, hsplit]
      rw [List.filter_cons_of_pos (by simpa using hs.1), hfil]

theorem splitSepCore_wf (s : List Char) :
    (∀ c ∈ (splitSepCore s).1, isSep c = false) ∧
    (∀ t ∈ (splitSepCore s).2, ∀ c ∈ t, isSep c = false) := by
  induction s with
  | nil => simp [splitSepCore]
  | cons c cs ih =>
    cases hc : isSep c with
    | true =>
      simp only [splitSepCore, hc, if_pos]
      refine ⟨by simp, ?_⟩
      intro t ht
      rcases List.mem_cons.mp ht with h1 | h2
      · subst h1; exact ih.1
      · exact ih.2 t h2
    | false =>
      simp only [splitSepCore, hc, Bool.false_eq_true, if_neg, not_false_iff]
      refine ⟨?_, ih.2⟩
      intro x hx
      rcases List.mem_cons.mp hx with h1 | h2
      · subst h1; exact hc
      · exact ih.1 x h2

theorem normalize_wf (s : String) : (normalize s).WF := by
  intro t ht
  simp only [normalize, splitSep] at ht
  rw [List.mem_filter] at ht
  refine ⟨by simpa using ht.2, ?_⟩
  have hwf := splitSepCore_wf s.data
  rcases List.mem_cons.mp ht.1 with h1 | h2
  · subst h1; exact hwf.1
  · exact hwf.2 t h2

theorem joinP_wf (a b : NPath) (ha : a.WF) (hb : b.WF) : (joinP a b).WF := by
  intro t ht
  simp only [joinP] at ht
  rcases List.mem_append.mp ht with h | h
  · exact ha t h
  · exact hb t h

theorem splitSep_cons_sep (c : Char) (l : List Char) (h : isSep c = true) :
    splitSep (c :: l) = [] :: splitSep l := by
  simp [splitSep, splitSepCore, h]

theorem normalize_render (p : NPath) (h : p.WF) : normalize p.render = p := by
  obtain ⟨ab, segs⟩ := p
  have hsegs : ∀ t ∈ segs, segOK t := h
  have hfil := splitSep_joinSegs segs hsegs
  cases ab with
  | true =>
    have hchars : (NPath.render ⟨true, segs⟩).data = '/' :: joinSegs segs := by
      simp [NPath.render, NPath.renderChars]
    simp only [normalize, hchars, NPath.mk.injEq]
    constructor
    · rfl
    · rw [splitSep_cons_sep '/' (joinSegs segs) (by simp [isSep])]
      rw [List.filter_cons_of_neg (by simp)]
      exact hfil
  | false =>
    cases segs with
    | nil => rfl
    | cons s rest =>
      have hs : segOK s := hsegs s (List.mem_cons_self s rest)
      obtain ⟨c, cs, hceq⟩ := List.exists_cons_of_ne_nil hs.1
      subst hceq
      have hc : isSep c = false := hs.2 c (List.mem_cons_self c cs)
      have hchars : (NPath.render ⟨false, (c :: cs) :: rest⟩).data =
          joinSegs ((c :: cs) :: rest) := by
        simp [NPath.render, NPath.renderChars]
      simp only [normalize, hchars, hfil]
      have hhead : headIsSep (joinSegs ((c :: cs) :: rest)) = false := by
        cases rest with
        | nil => simpa [joinSegs, headIsSep] using hc
        | cons t ts => simpa [joinSegs, headIsSep] using hc
      rw [hhead]

theorem resolveP_of_absolute (base : NPath) (s : String)
    (h : (normalize s).absolute = true) : resolveP base s = normalize s := by
  simp [resolveP, h]

theorem resolveP_wf (base : NPath) (s : String) (hb : base.WF) :
    (resolveP base s).WF := by
  unfold resolveP
  by_cases h : (normalize s).absolute = true
  · simpa [h] using normalize_wf s
  · simp only [h, if_false, Bool.false_eq_true]
    exact joinP_wf base (normalize s) hb (normalize_wf s)

theorem resolveP_absolute (base : NPath) (s : String) (hb : base.absolute = true) :
    (resolveP base s).absolute = true := by
  unfold resolveP
  by_cases h : (normalize s).absolute = true
  · simp [h]
  · simp [h, joinP, hb]

theorem Store.lookup_upsert (l : Store) (p : NPath) (e : Entry) :
    Store.lookup (Store.upsert l p e) p = some e := by
  induction l with
  | nil => simp [Store.upsert, Store.lookup]
  | cons qf rest ih =>
    obtain ⟨q, f⟩ := qf
    by_cases hq : q = p
    · simp [Store.upsert, Store.lookup, hq]
    · simp [Store.upsert, Store.lookup, hq, ih]

theorem CordHost.lookupMerged_write (h : CordHost) (p : NPath) (data : String) :
    (h.write p data).lookupMerged p = some (Entry.file data) := by
  unfold CordHost.write
  by_cases hex : h.pathExists p = true
  · simp [hex, CordHost.lookupMerged, Store.lookup_upsert]
  · simp [hex, CordHost.lookupMerged, Store.lookup_upsert]

theorem CordHost.isFile_false_of_not_exists (h : CordHost) (p : NPath)
    (hne : h.pathExists p = false) : h.isFile p = false := by
  cases hm : h.lookupMerged p with
  | none => simp [CordHost.isFile, hm]
  | some e => simp [CordHost.pathExists, hm] at hne

theorem CordHost.pathExists_of_isFile (h : CordHost) (p : NPath)
    (hf : h.isFile p = true) : h.pathExists p = true := by
  cases hm : h.lookupMerged p with
  | none => simp [CordHost.isFile, hm] at hf
  | some e => simp [CordHost.pathExists, hm]

theorem CordHost.backendExists_of_backendIsFile (h : CordHost) (p : NPath)
    (hf : h.backendIsFile p = true) : h.backendExists p = true := by
  cases hm : Store.lookup h.backend p with
  | none => simp [CordHost.backendIsFile, hm] at hf
  | some e => simp [CordHost.backendExists, hm]

/-- C1: after `writeFile(p, content)` completes without invoking its error
callback, `readFile(p)` returns the content and `fileExists(p)` is true. -/
theorem writeFile_readFile_fileExists (h : WebpackCompilerHost) (p content : String)
    (herr : (h.writeFile p content).2 = none) :
    (h.writeFile p content).1.readFile p = some content ∧
    (h.writeFile p content).1.fileExists p true = true := by
  have hm := CordHost.lookupMerged_write h.fs (h.resolve p) content
  simp only [WebpackCompilerHost.resolve] at hm
  constructor
  · simp [WebpackCompilerHost.readFile, WebpackCompilerHost.writeFile,
      WebpackCompilerHost.resolve, CordHost.pathExists, CordHost.isFile, hm]
  · simp [WebpackCompilerHost.fileExists, WebpackCompilerHost.writeFile,
      WebpackCompilerHost.resolve, CordHost.pathExists, CordHost.isFile, hm]

/-- C1 witness: a concrete write followed by a read and an existence check. -/
theorem writeFile_readFile_fileExists_witness :
    ((mkCompilerHost "/project" []).writeFile "src/a.ts" "export const x = 1;").1.readFile
        "src/a.ts" = some "export const x = 1;" ∧
    ((mkCompilerHost "/project" []).writeFile "src/a.ts" "export const x = 1;").1.fileExists
        "src/a.ts" true = true :=
  writeFile_readFile_fileExists (mkCompilerHost "/project" []) "src/a.ts"
    "export const x = 1;" rfl

/-- C2: when the resolved path does not exist in the merged view, or exists
but is not a file, `fileExists` is false and `readFile` / `readFileBuffer`
return the absent value; all three are total functions of the model. -/
theorem missing_file_results (h : WebpackCompilerHost) (p : String)
    (hne : h.fs.pathExists (h.resolve p) = false ∨ h.fs.isFile (h.resolve p) = false) :
    h.fileExists p true = false ∧ h.readFile p = none ∧ h.readFileBuffer p = none := by
  have hisf : h.fs.isFile (h.resolve p) = false := by
    rcases hne with h1 | h1
    · exact CordHost.isFile_false_of_not_exists _ _ h1
    · exact h1
  refine ⟨?_, ?_, ?_⟩
  · simp [WebpackCompilerHost.fileExists, hisf]
  · simp [WebpackCompilerHost.readFile, hisf]
  · simp [WebpackCompilerHost.readFileBuffer, hisf]

/-- C2 witness: a path absent from a concrete filesystem. -/
theorem missing_file_results_witness :
    hostA.fileExists "missing.ts" true = false ∧ hostA.readFile "missing.ts" = none ∧
    hostA.readFileBuffer "missing.ts" = none :=
  missing_file_results hostA "missing.ts" (Or.inl (by decide))

/-- C3: resolution is idempotent — resolving the rendering of an already
resolved path returns the same value, for a host whose base path is an
absolute (well-formed) directory. -/
theorem resolve_idempotent (h : WebpackCompilerHost) (p : String)
    (habs : h.basePath.absolute = true) (hwf : h.basePath.WF) :
    h.resolve (NPath.render (h.resolve p)) = h.resolve p := by
  have h1 : (h.resolve p).WF := resolveP_wf h.basePath p hwf
  have h2 : (h.resolve p).absolute = true := resolveP_absolute h.basePath p habs
  have h3 : normalize (NPath.render (h.resolve p)) = h.resolve p := normalize_render _ h1
  show resolveP h.basePath (NPath.render (h.resolve p)) = h.resolve p
  rw [resolveP_of_absolute h.basePath _ (by rw [h3]; exact h2), h3]

/-- C3 witness: a concrete relative path resolved twice. -/
theorem resolve_idempotent_witness :
    hostA.resolve (NPath.render (hostA.resolve "src/a.ts")) = hostA.resolve "src/a.ts" :=
  resolve_idempotent hostA "src/a.ts" (by decide) (by decide)

/-- C4: invalidating an existing file puts its resolved path into the
changed-file list, and resetting the tracker always empties the list. -/
theorem invalidate_reset_tracking (h : WebpackCompilerHost) (p : String)
    (hex : h.fileExists p true = true) :
    h.resolve p ∈ (h.invalidate p).getChangedFilePaths ∧
    ∀ g : WebpackCompilerHost, g.resetChangedFileTracker.getChangedFilePaths = [] := by
  constructor
  · unfold WebpackCompilerHost.invalidate
    simp only [hex, if_pos]
    unfold WebpackCompilerHost.getChangedFilePaths addChanged
    by_cases hmem : h.resolve p ∈ h.changedFiles
    · simp [hmem]
    · simp [hmem]
  · intro g; rfl

/-- C4 witness: invalidating and resetting on a concrete host. -/
theorem invalidate_reset_tracking_witness :
    hostA.resolve "big.txt" ∈ (hostA.invalidate "big.txt").getChangedFilePaths ∧
    hostA.resetChangedFileTracker.getChangedFilePaths = [] :=
  ⟨(invalidate_reset_tracking hostA "big.txt" (by decide)).1,
   (invalidate_reset_tracking hostA "big.txt" (by decide)).2 hostA⟩

/-- C5: `fileExists` with `delegate = false` is true exactly when the
resolved path is a file of the merged view and not a file of the backing
store. -/
theorem fileExists_overlay_only_iff (h : WebpackCompilerHost) (p : String) :
    h.fileExists p false = true ↔
      h.fs.isFile (h.resolve p) = true ∧ h.fs.backendIsFile (h.resolve p) = false := by
  unfold WebpackCompilerHost.fileExists
  constructor
  · intro hh
    simp only [Bool.false_eq_true, if_false, Bool.and_eq_true, Bool.not_eq_true'] at hh
    refine ⟨hh.1.2, ?_⟩
    cases hb : h.fs.backendIsFile (h.resolve p) with
    | false => rfl
    | true =>
      have hbe := CordHost.backendExists_of_backendIsFile h.fs (h.resolve p) hb
      rw [hbe, hb] at hh
      simpa using hh.2
  · rintro ⟨hf, hb⟩
    have hpe := CordHost.pathExists_of_isFile h.fs (h.resolve p) hf
    simp [hpe, hf, hb]

/-- C6: `getNgFactoryPaths()` consists exactly of the denormalized paths of
the filesystem's `create` records whose path ends in `.ngfactory.js` or
`.ngstyle.js`. -/
theorem getNgFactoryPaths_spec (h : WebpackCompilerHost) (x : String) :
    x ∈ h.getNgFactoryPaths ↔
      ∃ r, r ∈ h.fs.records ∧ r.kind = RecordKind.create ∧
        (r.path.hasSuffix ".ngfactory.js" = true ∨ r.path.hasSuffix ".ngstyle.js" = true) ∧
        x = denormalizePath r.path := by
  unfold WebpackCompilerHost.getNgFactoryPaths WebpackCompilerHost.virtualFiles
  constructor
  · intro hx
    rcases List.mem_map.mp hx with ⟨pp, hpp, hxeq⟩
    rcases List.mem_filter.mp hpp with ⟨hpv, hsuf⟩
    rcases List.mem_map.mp hpv with ⟨r, hr, hre⟩
    rcases List.mem_filter.mp hr with ⟨hrrec, hrkind⟩
    refine ⟨r, hrrec, of_decide_eq_true hrkind, ?_, ?_⟩
    · rw [hre]
      simpa using hsuf
    · rw [hre]
      exact hxeq.symm
  · rintro ⟨r, hrrec, hkind, hsuf, hxeq⟩
    rw [hxeq]
    refine List.mem_map.mpr ⟨r.path, ?_, rfl⟩
    refine List.mem_filter.mpr ⟨?_, ?_⟩
    · exact List.mem_map.mpr ⟨r, List.mem_filter.mpr ⟨hrrec, decide_eq_true hkind⟩, rfl⟩
    · simpa using hsuf

/-- C7: `stat` on a nonexistent resolved path is absent; on an existing path
its `blocks` field is the ceiling of `size / 512` (in particular `2` for a
1024-byte file, exhibited in the witness). -/
theorem stat_blocks_spec (h : WebpackCompilerHost) (p : String) (d r : Nat) :
    (h.fs.pathExists (h.resolve p) = false → h.stat p d r = none) ∧
    (∀ st s, h.fs.statInfo (h.resolve p) = some st → h.stat p d r = some s →
      s.blocks = (st.size + 511) / 512 ∧ st.size ≤ 512 * s.blocks ∧
      512 * s.blocks < st.size + 512) := by
  constructor
  · intro hne
    simp [WebpackCompilerHost.stat, hne]
  · intro st s h1 h2
    simp only [WebpackCompilerHost.stat] at h2
    by_cases hex : h.fs.pathExists (h.resolve p) = true
    · rw [hex] at h2
      simp only [Bool.not_true, Bool.false_eq_true, if_false] at h2
      rw [h1] at h2
      have hs : s = mkStats d r st := by
        simpa using h2.symm
      subst hs
      refine ⟨rfl, ?_, ?_⟩
      · show st.size ≤ 512 * ((st.size + 511) / 512)
        omega
      · show 512 * ((st.size + 511) / 512) < st.size + 512
        omega
    · simp only [Bool.not_eq_true] at hex
      rw [hex] at h2
      simp at h2

/-- C7 witness: the nonexistent path returns absent, and the concrete
1024-byte file `/project/big.txt` has `blocks = 2`. -/
theorem stat_blocks_spec_witness :
    hostA.stat "missing.txt" 42 7 = none ∧
    ((mkStats 42 7 ⟨1024, 0, 0, 0, 0⟩).blocks = (1024 + 511) / 512 ∧
      1024 ≤ 512 * (mkStats 42 7 ⟨1024, 0, 0, 0, 0⟩).blocks ∧
      512 * (mkStats 42 7 ⟨1024, 0, 0, 0, 0⟩).blocks < 1024 + 512) :=
  ⟨(stat_blocks_spec hostA "missing.txt" 42 7).1 (by decide),
   (stat_blocks_spec hostA "big.txt" 42 7).2 ⟨1024, 0, 0, 0, 0⟩
     (mkStats 42 7 ⟨1024, 0, 0, 0, 0⟩) (by decide) (by decide)⟩

/-- C8: evaluation of the source's `getCanonicalFileName` at a
case-insensitive host (`process.platform = 'win32'`): the ternary condition
is the method reference `this.useCaseSensitiveFileNames`, which is truthy
without ever being called, so the path is returned unchanged even though
`useCaseSensitiveFileNames()` is false and the specified behaviour is the
lower-cased resolved path. -/
theorem getCanonicalFileName_bug :
    (mkCompilerHost "/project" []).getCanonicalFileName "/Foo.TS" = normalize "/Foo.TS" ∧
    useCaseSensitiveFileNames "win32" = false ∧
    getCanonicalFileNameSpec "win32" (mkCompilerHost "/project" []) "/Foo.TS" =
      (normalize "/Foo.TS").lowerCase ∧
    (mkCompilerHost "/project" []).getCanonicalFileName "/Foo.TS" ≠
      getCanonicalFileNameSpec "win32" (mkCompilerHost "/project" []) "/Foo.TS" := by
  refine ⟨by decide, by decide, by decide, by decide⟩

/-- C9 counterexample: two `stat` calls on the same unchanged existing path
within one process draw the `ino` placeholder freshly from
`Math.floor(Math.random() * 100000)` on each call, so the inode field is not
stable: draws 7 and 8 give different inode values. -/
theorem stat_ino_unstable :
    (hostA.stat "big.txt" 42 7).map Stats.ino ≠ (hostA.stat "big.txt" 42 8).map Stats.ino :=
  by decide

/-- C9 amended: among the fabricated placeholder fields, the device id,
permission bits, link count, owner ids, `rdev` and `blksize` are stable
across calls within one process (the module-level `dev` is drawn once); the
inode is freshly randomized on every call and is not stable. -/
theorem stat_placeholder_stability (h : WebpackCompilerHost) (p : String)
    (d r1 r2 : Nat) (s1 s2 : Stats)
    (h1 : h.stat p d r1 = some s1) (h2 : h.stat p d r2 = some s2) :
    s1.dev = s2.dev ∧ s1.mode = s2.mode ∧ s1.nlink = s2.nlink ∧
    s1.uid = s2.uid ∧ s1.gid = s2.gid ∧ s1.rdev = s2.rdev ∧ s1.blksize = s2.blksize := by
  simp only [WebpackCompilerHost.stat] at h1 h2
  by_cases hex : h.fs.pathExists (h.resolve p) = true
  · rw [hex] at h1 h2
    simp only [Bool.not_true, Bool.false_eq_true, if_false] at h1 h2
    cases hst : h.fs.statInfo (h.resolve p) with
    | none =>
      rw [hst] at h1
      simp at h1
    | some st =>
      rw [hst] at h1 h2
      simp only [Option.some.injEq] at h1 h2
      subst h1
      subst h2
      exact ⟨rfl, rfl, rfl, rfl, rfl, rfl, rfl⟩
  · simp only [Bool.not_eq_true] at hex
    rw [hex] at h1
    simp at h1

/-- C9 witness: the stability of the non-inode placeholders at a concrete
host and two distinct random draws. -/
theorem stat_placeholder_stability_witness :
    (mkStats 42 7 ⟨1024, 0, 0, 0, 0⟩).dev = (mkStats 42 8 ⟨1024, 0, 0, 0, 0⟩).dev ∧
    (mkStats 42 7 ⟨1024, 0, 0, 0, 0⟩).mode = (mkStats 42 8 ⟨1024, 0, 0, 0, 0⟩).mode ∧
    (mkStats 42 7 ⟨1024, 0, 0, 0, 0⟩).nlink = (mkStats 42 8 ⟨1024, 0, 0, 0, 0⟩).nlink ∧
    (mkStats 42 7 ⟨1024, 0, 0, 0, 0⟩).uid = (mkStats 42 8 ⟨1024, 0, 0, 0, 0⟩).uid ∧
    (mkStats 42 7 ⟨1024, 0, 0, 0, 0⟩).gid = (mkStats 42 8 ⟨1024, 0, 0, 0, 0⟩).gid ∧
    (mkStats 42 7 ⟨1024, 0, 0, 0, 0⟩).rdev = (mkStats 42 8 ⟨1024, 0, 0, 0, 0⟩).rdev ∧
    (mkStats 42 7 ⟨1024, 0, 0, 0, 0⟩).blksize = (mkStats 42 8 ⟨1024, 0, 0, 0, 0⟩).blksize :=
  stat_placeholder_stability hostA "big.txt" 42 7 8
    (mkStats 42 7 ⟨1024, 0, 0, 0, 0⟩) (mkStats 42 8 ⟨1024, 0, 0, 0, 0⟩)
    (by decide) (by decide)

/-- C10: overlay-only existence implies merged existence —
`fileExists(p, delegate=false)` being true forces the default
`fileExists(p)` to be true as well. -/
theorem fileExists_overlay_implies_delegate (h : WebpackCompilerHost) (p : String)
    (hh : h.fileExists p false = true) : h.fileExists p true = true := by
  unfold WebpackCompilerHost.fileExists at hh ⊢
  simp only [Bool.false_eq_true, if_false, Bool.and_eq_true] at hh
  simp [hh.1.1, hh.1.2]

/-- C10 witness: a file written into the overlay over an empty backing
store. -/
theorem fileExists_overlay_implies_delegate_witness :
    ((mkCompilerHost "/project" []).writeFile "gen.ngfactory.js" "x").1.fileExists
      "gen.ngfactory.js" true = true :=
  fileExists_overlay_implies_delegate
    ((mkCompilerHost "/project" []).writeFile "gen.ngfactory.js" "x").1
    "gen.ngfactory.js" (by decide)

end CompilerHost
